import Mathlib

/-!
Verification of the notebook-to-reStructuredText converter (`rst.py`).

The program has two parts:

* `restify` walks a parsed notebook (worksheets, each a list of cells,
  the first cell of each worksheet skipped) and produces the output
  lines: code cells become a code block, their outputs a literal block,
  markdown cells become prose with image directives, headings and
  doubled backticks.
* `unfunk` strips ANSI escape sequences from traceback lines, via a
  two-state generator (`not_funk`), modelled here as a fold with one
  boolean state flag.

Lines are modelled as `List Char` (`Str`); Python's in-place deletion of
a leading empty text line is modelled as a computed skip, and the
`ValueError` raised by unpacking `line.split('](', 1)` when the
separator is absent is modelled with `Except`.
-/

namespace Rst

/-- A line of text, modelled as a list of characters. -/
abbrev Str := List Char

/-- The ESC character U+001B tested by `not_funk` (`c == u'\u001b'`). -/
def esc : Char := '\u001b'

/-- The backtick character, code point 96, used by `line.replace` in the
markdown branch of `restify`. -/
def backtick : Char := Char.ofNat 96

/-- Whitespace characters removed by Python's `str.rstrip()` (ASCII
whitespace: space, tab, newline, carriage return, vertical tab, form
feed). -/
def pySpace (c : Char) : Bool :=
  c = ' ' || c = '\t' || c = '\n' || c = '\r' || c = '\x0b' || c = '\x0c'

/-- Python's `s.rstrip()`: remove trailing whitespace. -/
def rstrip (l : Str) : Str := (l.reverse.dropWhile pySpace).reverse

/-- Python's `s.startswith(p)`. -/
def startsWith : Str → Str → Bool
  | [], _ => true
  | _ :: _, [] => false
  | a :: ps, b :: ls => a = b && startsWith ps ls

/-- Python's `s.split(sep, 1)` when it finds the separator: `some (a, b)`
splits at the first occurrence of `sep`; `none` means `sep` does not
occur (Python would return a one-element list, making the two-name
unpacking in `restify` raise `ValueError`). -/
def splitOnce (sep : Str) : Str → Option (Str × Str)
  | [] => if startsWith sep [] then some ([], []) else none
  | c :: rest =>
      if startsWith sep (c :: rest) then some ([], (c :: rest).drop sep.length)
      else (splitOnce sep rest).map (fun p => (c :: p.1, p.2))

/-- Whether `sep` occurs as a contiguous substring of `l`. -/
def hasSub (sep l : Str) : Bool := (splitOnce sep l).isSome

/-- Python's `s.split('\n')` (always at least one piece). -/
def splitNl : Str → List Str
  | [] => [[]]
  | c :: rest =>
      if c = '\n' then [] :: splitNl rest
      else
        match splitNl rest with
        | [] => [[c]]
        | h :: t => (c :: h) :: t

/-- Python's `line.replace('\x60', '\x60\x60')`: double every backtick. -/
def replaceBt : Str → Str
  | [] => []
  | c :: rest =>
      if c = backtick then backtick :: backtick :: replaceBt rest
      else c :: replaceBt rest

/-- Lowercase ASCII letter test `'a' <= c <= 'z'` from `not_funk`. -/
def isLowerAscii (c : Char) : Bool := 'a' ≤ c && c ≤ 'z'

/-- The state machine of `not_funk`, as a fold.  The flag is `false` in
pass-through mode and `true` in suppress mode.  In pass-through mode an
ESC is dropped and switches to suppress mode; in suppress mode every
character is dropped, and a lowercase ASCII letter switches back. -/
def unfunkGo : Bool → Str → Str
  | _, [] => []
  | false, c :: rest =>
      if c = esc then unfunkGo true rest else c :: unfunkGo false rest
  | true, c :: rest =>
      if isLowerAscii c then unfunkGo false rest else unfunkGo true rest

/-- Python's `unfunk(s)`: keep exactly the characters for which the `not_funk`
generator answers `True`, starting in pass-through mode. -/
def unfunk (s : Str) : Str := unfunkGo false s

/-- Drop characters up to and including the first lowercase ASCII letter
(or all of them when no such letter occurs).  Helper for the
specification-side description of the Stripper. -/
def skipEsc : Str → Str
  | [] => []
  | c :: rest => if isLowerAscii c then rest else skipEsc rest

theorem skipEsc_length_le (l : Str) : (skipEsc l).length ≤ l.length := by
  induction l with
  | nil => simp [skipEsc]
  | cons c rest ih =>
    by_cases h : isLowerAscii c = true
    · simp [skipEsc, h]
    · simp only [skipEsc, h, if_neg]
      exact Nat.le_succ_of_le ih

/-- Specification-side description of the Stripper (spec §4.2): remove
each maximal subsequence starting at an ESC character up to and
including the first subsequent lowercase ASCII letter (or to end of
string if no such letter follows), and keep every other character
verbatim in order. -/
def stripSpec : Str → Str
  | [] => []
  | c :: rest =>
      if c = esc then stripSpec (skipEsc rest) else c :: stripSpec rest
termination_by l => l.length
decreasing_by
  · exact Nat.lt_succ_of_le (skipEsc_length_le rest)
  · exact Nat.lt_succ_self _

theorem unfunkGo_eq_stripSpec (l : Str) :
    unfunkGo false l = stripSpec l ∧ unfunkGo true l = stripSpec (skipEsc l) := by
  induction l with
  | nil => constructor <;> simp [unfunkGo, stripSpec, skipEsc]
  | cons c rest ih =>
    constructor
    · by_cases h : c = esc
      · rw [show unfunkGo false (c :: rest) = unfunkGo true rest by
          simp [unfunkGo, h]]
        rw [show stripSpec (c :: rest) = stripSpec (skipEsc rest) by
          rw [stripSpec]; simp [h]]
        exact ih.2
      · rw [show unfunkGo false (c :: rest) = c :: unfunkGo false rest by
          simp [unfunkGo, h]]
        rw [show stripSpec (c :: rest) = c :: stripSpec rest by
          rw [stripSpec]; simp [h]]
        exact congrArg (c :: ·) ih.1
    · by_cases h : isLowerAscii c = true
      · rw [show unfunkGo true (c :: rest) = unfunkGo false rest by
          simp [unfunkGo, h]]
        rw [show skipEsc (c :: rest) = rest by simp [skipEsc, h]]
        exact ih.1
      · rw [show unfunkGo true (c :: rest) = unfunkGo true rest by
          simp [unfunkGo, h]]
        rw [show skipEsc (c :: rest) = skipEsc rest by simp [skipEsc, h]]
        exact ih.2

/-- An output record of a code cell: Python checks `'text' in o` first,
then `'traceback' in o`; an output with neither key contributes
nothing. -/
inductive Output : Type
  | text (lines : List Str)
  | traceback (lines : List Str)
  | other

/-- The lines contributed by one output record (`restify`, lines 16-24):
a text output drops a leading empty line, then right-trims and indents
each line by four spaces; a traceback output strips each raw line with
`unfunk`, splits it on newlines and indents each piece by four spaces. -/
def renderOutput : Output → List Str
  | .text ls =>
      (if ls.take 1 = [([] : Str)] then ls.drop 1 else ls).map
        (fun l => "    ".toList ++ rstrip l)
  | .traceback ls =>
      ls.flatMap (fun line => (splitNl (unfunk line)).map (fun l => "    ".toList ++ l))
  | .other => []

/-- The cleanup step of `restify` (lines 25-26): if the last two emitted
lines are exactly `::` followed by a blank line, delete them.  Python's
`out[-2:] == ['::', '']` is read off the reversed list. -/
def trailingCleanup (l : List Str) : List Str :=
  if l.reverse.take 2 = [([] : Str), "::".toList] then l.dropLast.dropLast else l

/-- Processing of one code cell (`restify`, lines 11-26), appending to
the lines `out` accumulated so far: right-trim the source lines, emit
the three code-block framing lines, the indented source lines (dropping
lines equal to `##`), the three literal-block framing lines, the
rendered outputs, and finally the trailing cleanup. -/
def processCodeCell (out : List Str) (input : List Str) (outputs : List Output) :
    List Str :=
  trailingCleanup
    (out ++ [[], ".. code-block:: python".toList, []]
      ++ ((input.map rstrip).filter (fun l => decide (l ≠ "##".toList))).map
          (fun l => "    ".toList ++ l)
      ++ [[], "::".toList, []]
      ++ outputs.flatMap renderOutput)

/-- Processing of one right-trimmed markdown source line (`restify`,
lines 30-44): an image line `![caption](link)` becomes an image
directive and an alt line (failing, like Python's two-name unpacking of
`line.split('](', 1)`, when `](` does not occur); a `## ` heading
becomes the heading text and a dash underline of the same length; any
other line has its backticks doubled. -/
def processTrimmed (line : Str) : Except Unit (List Str) :=
  if startsWith "![".toList line then
    match splitOnce "](".toList line with
    | none => Except.error ()
    | some (cap, link) =>
        Except.ok [".. image:: ".toList ++ link.dropLast,
          "   :alt: ".toList ++ cap.drop 2]
  else if startsWith "## ".toList line then
    Except.ok [line.drop 3, List.replicate (line.drop 3).length '-']
  else
    Except.ok [replaceBt line]

/-- One markdown source line: right-trim, then process. -/
def processMdLine (line : Str) : Except Unit (List Str) :=
  processTrimmed (rstrip line)

/-- All source lines of a markdown cell, in order; the first failing
line aborts the transformation. -/
def processMdLines : List Str → Except Unit (List Str)
  | [] => Except.ok []
  | l :: rest => do
      let a ← processMdLine l
      let b ← processMdLines rest
      Except.ok (a ++ b)

/-- A notebook cell: `cell_type` is `'code'`, `'markdown'`, or anything
else (silently skipped). -/
inductive Cell : Type
  | code (input : List Str) (outputs : List Output)
  | markdown (source : List Str)
  | other

/-- One cell (`restify`, lines 11-44), appending to the lines emitted so
far: a code cell appends its block, a markdown cell appends one blank
line and its processed source lines, any other cell appends nothing. -/
def processCell (out : List Str) : Cell → Except Unit (List Str)
  | .code input outputs => Except.ok (processCodeCell out input outputs)
  | .markdown source => do
      let ls ← processMdLines source
      Except.ok (out ++ [[]] ++ ls)
  | .other => Except.ok out

/-- The cells of one worksheet, in order. -/
def processCells (out : List Str) : List Cell → Except Unit (List Str)
  | [] => Except.ok out
  | c :: rest => do
      let out2 ← processCell out c
      processCells out2 rest

/-- The worksheets of the notebook, in order; the first cell of each
worksheet is skipped (`w['cells'][1:]`). -/
def restifyGo (out : List Str) : List (List Cell) → Except Unit (List Str)
  | [] => Except.ok out
  | w :: ws => do
      let out2 ← processCells out (w.drop 1)
      restifyGo out2 ws

/-- Python's `restify(nb)`: the full transformation, starting from an empty
output list. -/
def restify (nb : List (List Cell)) : Except Unit (List Str) := restifyGo [] nb

/-- The transformation C2 claims for a plain prose line: every literal
backtick of the line doubled and no other character altered.  This is
the claim's wording, to be compared with the code's `replaceBt`. -/
def claimDouble (l : Str) : Str :=
  l.flatMap (fun c => if c = backtick then [backtick, backtick] else [c])

theorem renderOutput_ne_nil (o : Output) (l : Str) (hl : l ∈ renderOutput o) :
    l ≠ [] := by
  cases o with
  | text ls =>
    simp only [renderOutput, List.mem_map] at hl
    obtain ⟨a, _, ha⟩ := hl
    rw [← ha]
    exact List.append_ne_nil_of_left_ne_nil (by decide) _
  | traceback ls =>
    simp only [renderOutput, List.mem_flatMap, List.mem_map] at hl
    obtain ⟨line, _, a, _, ha⟩ := hl
    rw [← ha]
    exact List.append_ne_nil_of_left_ne_nil (by decide) _
  | other => simp [renderOutput] at hl

theorem flatMap_renderOutput_ne_nil (outputs : List Output) (l : Str)
    (hl : l ∈ outputs.flatMap renderOutput) : l ≠ [] := by
  rw [List.mem_flatMap] at hl
  obtain ⟨o, _, hlo⟩ := hl
  exact renderOutput_ne_nil o l hlo

theorem dropLast_snoc {A : Type} (l : List A) (a : A) : (l ++ [a]).dropLast = l := by
  simp

theorem trailingCleanup_spec (A ol : List Str) (h : ∀ l ∈ ol, l ≠ ([] : Str)) :
    trailingCleanup (A ++ [[], "::".toList, []] ++ ol) =
      A ++ (if ol = [] then [[]] else [[], "::".toList, []] ++ ol) := by
  cases ol with
  | nil =>
    rw [if_pos rfl, List.append_nil]
    have hc : (A ++ [[], "::".toList, []]).reverse.take 2 =
        [([] : Str), "::".toList] := by
      rw [List.reverse_append]
      rfl
    rw [trailingCleanup, if_pos hc]
    have e1 : A ++ [[], "::".toList, []] =
        (A ++ [[], "::".toList]) ++ [([] : Str)] := by simp
    rw [e1, dropLast_snoc]
    have e2 : A ++ [([] : Str), "::".toList] =
        (A ++ [([] : Str)]) ++ ["::".toList] := by simp
    rw [e2, dropLast_snoc]
  | cons o1 ot =>
    rw [if_neg (List.cons_ne_nil o1 ot)]
    have hrev : (o1 :: ot).reverse ≠ [] := by simp
    obtain ⟨x, xs, hxe⟩ := List.exists_cons_of_ne_nil hrev
    have hxmem : x ∈ o1 :: ot := by
      have : x ∈ (o1 :: ot).reverse := by rw [hxe]; exact List.mem_cons_self x xs
      exact List.mem_reverse.mp this
    have hcond : ¬ ((A ++ [[], "::".toList, []] ++ (o1 :: ot)).reverse.take 2 =
        [([] : Str), "::".toList]) := by
      rw [List.reverse_append, hxe]
      intro hq
      rw [List.cons_append] at hq
      injection hq with hq1 hq2
      exact h x hxmem hq1
    rw [trailingCleanup, if_neg hcond]
    simp [List.append_assoc]

theorem processCodeCell_eq (out input : List Str) (outputs : List Output) :
    processCodeCell out input outputs =
      out ++ [[], ".. code-block:: python".toList, []]
        ++ ((input.map rstrip).filter (fun l => decide (l ≠ "##".toList))).map
            (fun l => "    ".toList ++ l)
        ++ (if outputs.flatMap renderOutput = [] then [[]]
            else [[], "::".toList, []] ++ outputs.flatMap renderOutput) := by
  unfold processCodeCell
  exact trailingCleanup_spec _ _ (flatMap_renderOutput_ne_nil outputs)

theorem startsWith_append (p r : Str) : startsWith p (p ++ r) = true := by
  induction p with
  | nil => rfl
  | cons a ps ih => simp [startsWith, ih]

theorem splitOnce_append_of_not_contains (sep x y : Str) (hsep : sep ≠ [])
    (hx : ∀ i, i < x.length → startsWith sep ((x ++ sep ++ y).drop i) = false) :
    splitOnce sep (x ++ sep ++ y) = some (x, y) := by
  induction x with
  | nil =>
    simp only [List.nil_append]
    obtain ⟨s, ss, hse⟩ := List.exists_cons_of_ne_nil hsep
    rw [hse, List.cons_append, splitOnce]
    rw [← List.cons_append, ← hse, startsWith_append, if_pos rfl]
    rw [List.drop_left]
  | cons a xs ih =>
    have h0 : startsWith sep (a :: (xs ++ sep ++ y)) = false := by
      have := hx 0 (Nat.succ_pos _)
      simpa [List.cons_append] using this
    rw [List.cons_append, List.cons_append, splitOnce]
    rw [← List.cons_append, ← List.cons_append]
    rw [show startsWith sep (a :: xs ++ sep ++ y) = false by
      simpa [List.cons_append] using h0]
    simp only [Bool.false_eq_true, if_false]
    rw [ih (fun i hi => by
      have := hx (i + 1) (Nat.succ_lt_succ hi)
      simpa [List.cons_append] using this)]
    rfl

theorem dropWhile_append_of_forall (w r : Str) (h : ∀ c ∈ w, pySpace c = true) :
    (w ++ r).dropWhile pySpace = r.dropWhile pySpace := by
  induction w with
  | nil => rfl
  | cons c cs ih =>
    have hc : pySpace c = true := h c (List.mem_cons_self c cs)
    rw [List.cons_append, List.dropWhile_cons, if_pos hc]
    exact ih (fun d hd => h d (List.mem_cons_of_mem c hd))

theorem rstrip_append_spaces (x w : Str) (h : ∀ c ∈ w, pySpace c = true) :
    rstrip (x ++ w) = rstrip x := by
  unfold rstrip
  rw [List.reverse_append]
  rw [dropWhile_append_of_forall w.reverse x.reverse
    (fun c hc => h c (List.mem_reverse.mp hc))]

theorem replaceBt_eq_claimDouble (l : Str) : replaceBt l = claimDouble l := by
  induction l with
  | nil => rfl
  | cons c rest ih =>
    by_cases h : c = backtick
    · simp [replaceBt, claimDouble, h, List.flatMap_cons]
      rw [← claimDouble, ← ih]
    · simp [replaceBt, claimDouble, h, List.flatMap_cons]
      rw [← claimDouble, ← ih]

theorem processTrimmed_prose (t : Str)
    (h1 : startsWith "![".toList t = false)
    (h2 : startsWith "## ".toList t = false) :
    processTrimmed t = Except.ok [replaceBt t] := by
  unfold processTrimmed
  rw [h1, h2]
  rfl

theorem processTrimmed_heading (t : Str)
    (h1 : startsWith "![".toList t = false)
    (h2 : startsWith "## ".toList t = true) :
    processTrimmed t =
      Except.ok [t.drop 3, List.replicate (t.drop 3).length '-'] := by
  unfold processTrimmed
  rw [h1, h2]
  rfl

theorem processTrimmed_image (t cap link : Str)
    (h1 : startsWith "![".toList t = true)
    (hsp : splitOnce "](".toList t = some (cap, link)) :
    processTrimmed t =
      Except.ok [".. image:: ".toList ++ link.dropLast,
        "   :alt: ".toList ++ cap.drop 2] := by
  unfold processTrimmed
  rw [h1, hsp]
  rfl

theorem processTrimmed_err (t : Str)
    (h1 : startsWith "![".toList t = true)
    (hnone : splitOnce "](".toList t = none) :
    processTrimmed t = Except.error () := by
  unfold processTrimmed
  rw [h1, hnone]
  rfl

/-- C1: for every code cell, the two literal-block framing lines (`::`
followed by a blank line) are absent from the final output if and only
if the cell's outputs produced no rendered output lines (in particular
whenever the outputs list is empty), while the three earlier code-block
framing lines (blank, introducer, blank) are always present; the cleanup
never deletes any line produced by an output record or by an earlier
cell: the previously accumulated lines `out` and the rendered output
lines appear verbatim in the result. -/
theorem spec_c1 (out input : List Str) (outputs : List Output) :
    processCodeCell out input outputs =
      out ++ [[], ".. code-block:: python".toList, []]
        ++ ((input.map rstrip).filter (fun l => decide (l ≠ "##".toList))).map
            (fun l => "    ".toList ++ l)
        ++ (if outputs.flatMap renderOutput = [] then [[]]
            else [[], "::".toList, []] ++ outputs.flatMap renderOutput) :=
  processCodeCell_eq out input outputs

/-- C2 (amended): for every plain prose line of a markdown cell (its
right-trimmed form is neither an image line nor a level-2 heading line),
the transformer emits exactly one line in which every literal backtick
of the right-trimmed source line is doubled and no other character of
the right-trimmed line is altered; trailing whitespace of the source
line is removed, not preserved. -/
theorem spec_c2 (ln : Str)
    (h1 : startsWith "![".toList (rstrip ln) = false)
    (h2 : startsWith "## ".toList (rstrip ln) = false) :
    processMdLine ln = Except.ok [claimDouble (rstrip ln)] := by
  rw [show processMdLine ln = Except.ok [replaceBt (rstrip ln)] from
    processTrimmed_prose _ h1 h2, replaceBt_eq_claimDouble]

/-- C2 counterexample: the source line `"x "` is a plain prose line, but
the emitted line is not the source line with its backticks doubled and
everything else unaltered (`claimDouble`): the trailing space is
removed. -/
theorem spec_c2_cex :
    startsWith "![".toList (rstrip "x ".toList) = false ∧
      startsWith "## ".toList (rstrip "x ".toList) = false ∧
      processMdLine "x ".toList ≠ Except.ok [claimDouble "x ".toList] := by
  refine ⟨by decide, by decide, ?_⟩
  intro h
  have h0 : (Except.ok ["x".toList] : Except Unit (List Str)) =
      Except.ok [claimDouble "x ".toList] := by
    rw [← h]
    rfl
  injection h0 with h1
  exact absurd h1 (by decide)

/-- C2 witness: a concrete prose line with backticks. -/
theorem spec_c2_witness :
    processMdLine "see `f` and `g`".toList =
      Except.ok ["see ``f`` and ``g``".toList] :=
  (spec_c2 "see `f` and `g`".toList (by decide) (by decide)).trans (by rfl)

/-- C3: the Stripper removes each maximal subsequence starting at an ESC
character (U+001B) up to and including the first subsequent lowercase
ASCII letter (or to the end of the string if no such letter follows) and
keeps every other character verbatim in order (`stripSpec` is that
description, `unfunk` the code); in particular
`strip("\x1b[31merror\x1b[0m") = "error"`. -/
theorem spec_c3 :
    (∀ s : Str, unfunk s = stripSpec s) ∧
      unfunk "\u001b[31merror\u001b[0m".toList = "error".toList :=
  ⟨fun s => (unfunkGo_eq_stripSpec s).1, by decide⟩

/-- C4: for every text output whose first line is the empty string, the
rendered output omits that leading empty line and preserves all
subsequent lines in order, each right-trimmed and indented by 4 spaces;
only the single first line is dropped (the remaining lines, including
any later empty ones, are all rendered). -/
theorem spec_c4 (ts : List Str) (h : ts.head? = some ([] : Str)) :
    renderOutput (Output.text ts) =
      ts.tail.map (fun l => "    ".toList ++ rstrip l) := by
  cases ts with
  | nil => simp at h
  | cons t rest =>
    have ht : t = [] := by simpa using h
    subst ht
    rfl

/-- C4 witness: a text output with a leading empty line and a later
empty line. -/
theorem spec_c4_witness :
    renderOutput (Output.text [[], "1 ".toList, [], "2".toList]) =
      ["    1".toList, "    ".toList, "    2".toList] :=
  (spec_c4 [[], "1 ".toList, [], "2".toList] rfl).trans (by decide)

/-- C5: for every markdown source line whose right-trimmed form starts
with `## ` and is not an image line, the transformer emits the text
after the 3-character prefix as one line, immediately followed by a line
of dashes exactly as long as that text. -/
theorem spec_c5 (ln : Str)
    (h1 : startsWith "![".toList (rstrip ln) = false)
    (h2 : startsWith "## ".toList (rstrip ln) = true) :
    processMdLine ln =
      Except.ok [(rstrip ln).drop 3,
        List.replicate ((rstrip ln).drop 3).length '-'] :=
  processTrimmed_heading (rstrip ln) h1 h2

/-- C5 witness: the line `"## Title"` yields `"Title"` then five dashes. -/
theorem spec_c5_witness :
    processMdLine "## Title".toList =
      Except.ok ["Title".toList, "-----".toList] :=
  (spec_c5 "## Title".toList (by decide) (by decide)).trans (by rfl)

/-- C6: for every markdown source line whose right-trimmed form is
`![cap](link)` — it starts with `![`, its first occurrence of `](`
separates `cap` from `link`, and it ends with the trailing `)` — the
transformer emits exactly two lines, an image directive referencing the
link and an alt-text line carrying the caption, and the heading and
backtick-escaping steps are skipped for that line. -/
theorem spec_c6 (ln cap link : Str)
    (h1 : rstrip ln = "![".toList ++ cap ++ "](".toList ++ link ++ [')'])
    (h2 : ∀ i, i < ("![".toList ++ cap).length →
      startsWith "](".toList ((rstrip ln).drop i) = false) :
    processMdLine ln =
      Except.ok [".. image:: ".toList ++ link, "   :alt: ".toList ++ cap] := by
  have hsw : startsWith "![".toList (rstrip ln) = true := by
    rw [h1]
    have := startsWith_append "![".toList (cap ++ "](".toList ++ link ++ [')'])
    simpa [List.append_assoc] using this
  have hsp : splitOnce "](".toList (rstrip ln) =
      some ("![".toList ++ cap, link ++ [')']) := by
    have hx : ∀ i, i < ("![".toList ++ cap).length →
        startsWith "](".toList
          ((("![".toList ++ cap) ++ "](".toList ++ (link ++ [')'])).drop i) =
          false := by
      intro i hi
      have := h2 i hi
      rw [h1] at this
      simpa [List.append_assoc] using this
    have := splitOnce_append_of_not_contains "](".toList ("![".toList ++ cap)
      (link ++ [')']) (by decide) hx
    rw [h1]
    simpa [List.append_assoc] using this
  have h0 := processTrimmed_image (rstrip ln) ("![".toList ++ cap)
    (link ++ [')']) hsw hsp
  rw [dropLast_snoc] at h0
  rw [show List.drop 2 ("![".toList ++ cap) = cap from List.drop_left' rfl] at h0
  exact h0

/-- C6 witness: the spec's Example 3. -/
theorem spec_c6_witness :
    processMdLine "![a cat](http://x/cat.png)".toList =
      Except.ok [".. image:: http://x/cat.png".toList, "   :alt: a cat".toList] :=
  (spec_c6 "![a cat](http://x/cat.png)".toList "a cat".toList
    "http://x/cat.png".toList (by decide) (by decide)).trans (by rfl)

/-- C7: for every code cell, any source line whose right-trimmed content
is exactly `##` is dropped entirely: the source-derived block of the
output is exactly the other right-trimmed source lines, in their
original order, each with a 4-space prefix, and no line of that block is
`##` or `    ##`. -/
theorem spec_c7 (out input : List Str) (outputs : List Output) :
    processCodeCell out input outputs =
      out ++ [[], ".. code-block:: python".toList, []]
        ++ ((input.map rstrip).filter (fun l => decide (l ≠ "##".toList))).map
            (fun l => "    ".toList ++ l)
        ++ (if outputs.flatMap renderOutput = [] then [[]]
            else [[], "::".toList, []] ++ outputs.flatMap renderOutput) ∧
      "##".toList ∉
        ((input.map rstrip).filter (fun l => decide (l ≠ "##".toList))).map
          (fun l => "    ".toList ++ l) ∧
      "    ##".toList ∉
        ((input.map rstrip).filter (fun l => decide (l ≠ "##".toList))).map
          (fun l => "    ".toList ++ l) := by
  refine ⟨processCodeCell_eq out input outputs, ?_, ?_⟩
  · intro hm
    rw [List.mem_map] at hm
    obtain ⟨a, _, ha⟩ := hm
    have hl := congrArg List.length ha
    rw [List.length_append] at hl
    rw [show ("    ".toList).length = 4 from rfl,
      show ("##".toList).length = 2 from rfl] at hl
    omega
  · intro hm
    rw [List.mem_map] at hm
    obtain ⟨a, hain, ha⟩ := hm
    have hd := congrArg (List.drop 4) ha
    rw [show (4 : Nat) = ("    ".toList).length from rfl, List.drop_left] at hd
    have ha2 : a = "##".toList := hd.trans (by rfl)
    rw [List.mem_filter] at hain
    have hne := hain.2
    rw [decide_eq_true_eq] at hne
    exact hne ha2

/-- C7 witness: the spec's Example 1 — the `##` source line is gone,
the other lines are indented, the output `1` follows the `::` block. -/
theorem spec_c7_witness :
    processCodeCell [] ["x = 1".toList, "##".toList, "print(x)".toList]
        [Output.text ["1".toList]] =
      [[], ".. code-block:: python".toList, [], "    x = 1".toList,
        "    print(x)".toList, [], "::".toList, [], "    1".toList] :=
  ((spec_c7 [] ["x = 1".toList, "##".toList, "print(x)".toList]
    [Output.text ["1".toList]]).1).trans (by decide)

/-- C8: for every string containing no U+001B code point, the Stripper
is the identity (hence idempotent on escape-free input). -/
theorem spec_c8 (s : Str) (h : esc ∉ s) : unfunk s = s := by
  induction s with
  | nil => rfl
  | cons c rest ih =>
    simp only [List.mem_cons, not_or] at h
    have hc : ¬ c = esc := fun hce => h.1 hce.symm
    show unfunkGo false (c :: rest) = c :: rest
    rw [show unfunkGo false (c :: rest) = c :: unfunkGo false rest by
      simp [unfunkGo, hc]]
    exact congrArg (c :: ·) (ih h.2)

/-- C8 witness: an escape-free traceback line. -/
theorem spec_c8_witness :
    unfunk "traceback line 1\nline 2".toList = "traceback line 1\nline 2".toList :=
  spec_c8 "traceback line 1\nline 2".toList (by decide)

/-- C9: for every markdown source line whose right-trimmed form starts
with `![` but contains no occurrence of `](`, the transformation fails
with an error (Python's two-name unpacking of a one-element split), and
a document containing such a cell produces no output. -/
theorem spec_c9 (ln : Str) (c0 : Cell)
    (h1 : startsWith "![".toList (rstrip ln) = true)
    (h2 : hasSub "](".toList (rstrip ln) = false) :
    processMdLine ln = Except.error () ∧
      restify [[c0, Cell.markdown [ln]]] = Except.error () := by
  have hnone : splitOnce "](".toList (rstrip ln) = none := by
    cases hso : splitOnce "](".toList (rstrip ln) with
    | none => rfl
    | some p => rw [hasSub, hso] at h2; simp at h2
  have hline : processMdLine ln = Except.error () :=
    processTrimmed_err _ h1 hnone
  have hml : processMdLines [ln] = Except.error () := by
    have e : processMdLines [ln] =
        (do
          let a ← processMdLine ln
          let b ← processMdLines ([] : List Str)
          Except.ok (a ++ b)) := rfl
    rw [e, hline]
    rfl
  have hcell : processCell [] (Cell.markdown [ln]) = Except.error () := by
    have e : processCell [] (Cell.markdown [ln]) =
        (do
          let ls ← processMdLines [ln]
          Except.ok (([] : List Str) ++ [[]] ++ ls)) := rfl
    rw [e, hml]
    rfl
  have hcells : processCells [] [Cell.markdown [ln]] = Except.error () := by
    have e : processCells [] [Cell.markdown [ln]] =
        (do
          let out2 ← processCell [] (Cell.markdown [ln])
          processCells out2 []) := rfl
    rw [e, hcell]
    rfl
  refine ⟨hline, ?_⟩
  have e : restify [[c0, Cell.markdown [ln]]] =
      (do
        let out2 ← processCells [] [Cell.markdown [ln]]
        restifyGo out2 []) := rfl
  rw [e, hcells]
  rfl

/-- C9 witness: a malformed image line aborts the transformation. -/
theorem spec_c9_witness :
    processMdLine "![oops".toList = Except.error () ∧
      restify [[Cell.other, Cell.markdown ["![oops".toList]]] = Except.error () :=
  spec_c9 "![oops".toList Cell.other (by decide) (by decide)

/-- C10: every markdown source line consisting of `##` followed only by
whitespace is emitted as the single prose line `##` (no heading and no
underline), because right-trimming happens before the `## ` test. -/
theorem spec_c10 (tl : Str) (h : ∀ c ∈ tl, pySpace c = true) :
    processMdLine ("##".toList ++ tl) = Except.ok ["##".toList] := by
  have hr : rstrip ("##".toList ++ tl) = rstrip "##".toList :=
    rstrip_append_spaces _ _ h
  unfold processMdLine
  rw [hr]
  rfl

/-- C10 witness: the line `"## "` (hash, hash, space). -/
theorem spec_c10_witness :
    processMdLine "## ".toList = Except.ok ["##".toList] :=
  (congrArg processMdLine (by decide : "## ".toList = "##".toList ++ [' '])).trans
    (spec_c10 [' '] (by decide))

end Rst
